import Mathlib

/-!
Verification of the `pkg/buffer` module of the `moe` editor (buffer.go).

The Go code is shallowly embedded: byte sequences become `List Nat`,
Go `int` values that can go negative (cursor, viewport offset, mouse
coordinates) become `Int`, the dense `map[int]LineInfo` produced by
`SetSource` (keys are exactly `0 .. n-1`) becomes a `List LineInfo`
indexed by row, and a lookup of a missing row yields the zero value
`{start := 0, endPos := 0, indentation := 0}` exactly as a Go map does.
The external tree-sitter parser is out of scope (an external collaborator):
its output, an ordered list of named captures, is an input of the
highlighting function.
-/

namespace Moe

/-- LineInfo from buffer.go: `start`/`end` byte offsets of a line and its
visual indentation width. The Go field `end` is named `endPos` here because
`end` is a Lean keyword. -/
structure LineInfo where
  start : Nat
  endPos : Nat
  indentation : Nat
deriving Repr, DecidableEq

/-- Zero value of `LineInfo`, what a Go map lookup yields for a missing key. -/
def zeroLine : LineInfo := { start := 0, endPos := 0, indentation := 0 }

/-- SourceCode from buffer.go: raw bytes, one color byte per data byte,
cursor offset, the (opaque) tree-sitter tree, and the row index. -/
structure SourceCode where
  data : List Nat
  colors : List Nat
  cursor : Int
  tree : Option Unit
  lines : List LineInfo
deriving Repr, DecidableEq

/-- Loop state of `SetSource`: the variables `lines`, `i`, `prevLine`,
`currentLine`, `foundChar`, `lineInfo` of the Go scan loop. -/
structure ScanState where
  lines : List LineInfo
  i : Nat
  prevLine : Int
  currentLine : Nat
  foundChar : Bool
  lineInfo : LineInfo
deriving Repr, DecidableEq

/-- One iteration of the `for _, b := range source` loop of `SetSource`
(buffer.go lines 87-111). Byte values: 9 = tab, 32 = space, 10 = newline.
Committing `lines[currentLine] = lineInfo` is a list append because
`currentLine` always equals the number of committed rows. -/
def scanStep (st : ScanState) (b : Nat) : ScanState :=
  let st :=
    if st.prevLine ≠ (st.currentLine : Int) then
      { st with foundChar := false,
                lineInfo := { start := st.i, endPos := st.i, indentation := 0 },
                prevLine := (st.currentLine : Int) }
    else st
  let st :=
    if b = 9 ∧ st.foundChar = false then
      { st with lineInfo := { st.lineInfo with indentation := st.lineInfo.indentation + 4 } }
    else if b = 32 ∧ st.foundChar = false then
      { st with lineInfo := { st.lineInfo with indentation := st.lineInfo.indentation + 1 } }
    else
      { st with foundChar := true }
  let st :=
    if b = 10 then
      { st with lineInfo := { st.lineInfo with endPos := st.i },
                lines := st.lines ++ [{ st.lineInfo with endPos := st.i }],
                currentLine := st.currentLine + 1 }
    else st
  { st with i := st.i + 1 }

/-- Initial loop state of `SetSource`: empty map, `i = 0`, `prevLine = -1`,
`currentLine = 0`, `foundChar = false`, zero `lineInfo`. -/
def scanInit : ScanState :=
  { lines := [], i := 0, prevLine := -1, currentLine := 0, foundChar := false,
    lineInfo := { start := 0, endPos := 0, indentation := 0 } }

/-- SetSource (buffer.go lines 76-118): scan the bytes, then set every field
of the receiver; `colors` is `bytes.Repeat([]byte{0x05}, len(source))`,
`cursor` is 0 and `tree` is nil. The receiver's prior value is irrelevant
since every field is overwritten. -/
def setSource (source : List Nat) : SourceCode :=
  let st := source.foldl scanStep scanInit
  { data := source, colors := List.replicate source.length 5, cursor := 0,
    tree := none, lines := st.lines }

/-- clamp from buffer.go lines 443-445: limits `val` to `[low, high)`. -/
def clamp (val low high : Int) : Int :=
  max low (min val (high - 1))

/-- cursorDown (buffer.go lines 424-425): an empty function body. -/
def cursorDown (s : SourceCode) (_n : Int) : SourceCode := s

/-- cursorUp (buffer.go lines 427-428): an empty function body. -/
def cursorUp (s : SourceCode) (_n : Int) : SourceCode := s

/-- cursorLeft (buffer.go lines 430-432). -/
def cursorLeft (s : SourceCode) (n : Int) : SourceCode :=
  { s with cursor := clamp (s.cursor - n) 0 (s.data.length : Int) }

/-- cursorRight (buffer.go lines 434-436). -/
def cursorRight (s : SourceCode) (n : Int) : SourceCode :=
  { s with cursor := clamp (s.cursor + n) 0 (s.data.length : Int) }

/-- Viewport from buffer.go lines 134-137. -/
structure Viewport where
  offset : Int
  width : Int
  height : Int
deriving Repr, DecidableEq

/-- Model from buffer.go lines 140-151, restricted to the fields the update
loop reads or writes (`Path` and the file descriptor play no role here; the
`source` pointer is assumed non-nil, i.e. a file is loaded). -/
structure Model where
  ready : Bool
  source : SourceCode
  viewport : Viewport
deriving Repr, DecidableEq

/-- Messages handled by `Model.Update` (buffer.go lines 169-238):
window resize, a key press, the three mouse events the code handles,
and the parse-completion message `TreeReloadMsg`. -/
inductive Msg where
  | windowSize (width height : Int)
  | key (s : String)
  | mouseWheelUp
  | mouseWheelDown
  | mouseLeft (x y : Int)
  | treeReload (tree : Option Unit) (colors : List Nat)
deriving Repr, DecidableEq

/-- Lookup `m.source.lines[row]` of the Go map: a missing key (negative row
or row at or past the number of committed lines) yields the zero value. -/
def lineAt (lines : List LineInfo) (row : Int) : LineInfo :=
  if 0 ≤ row then lines.getD row.toNat { start := 0, endPos := 0, indentation := 0 }
  else { start := 0, endPos := 0, indentation := 0 }

/-- Model.Update (buffer.go lines 169-238). Go integer division truncates
toward zero, hence `Int.tdiv`. The key branch keeps the source's six
successive independent `if` statements. -/
def update (m : Model) (msg : Msg) : Model :=
  match msg with
  | .windowSize w h =>
      if m.ready = false then
        { m with viewport := { offset := 0, width := w, height := h - 2 }, ready := true }
      else
        { m with viewport := { m.viewport with width := w, height := h - 2 } }
  | .key s =>
      let m := if s = "ctrl+u" then
          let o := clamp (m.viewport.offset - Int.tdiv m.viewport.height 2) 0
            ((m.source.lines.length : Int) - m.viewport.height + 2)
          { m with viewport := { m.viewport with offset := o } }
        else m
      let m := if s = "ctrl+d" then
          let o := clamp (m.viewport.offset + Int.tdiv m.viewport.height 2) 0
            ((m.source.lines.length : Int) - m.viewport.height + 2)
          { m with viewport := { m.viewport with offset := o } }
        else m
      let m := if s = "j" then { m with source := cursorDown m.source 1 } else m
      let m := if s = "k" then { m with source := cursorUp m.source 1 } else m
      let m := if s = "l" then { m with source := cursorRight m.source 1 } else m
      let m := if s = "h" then { m with source := cursorLeft m.source 1 } else m
      m
  | .mouseWheelUp =>
      let o := clamp (m.viewport.offset - 3) 0
        ((m.source.lines.length : Int) - m.viewport.height + 2)
      { m with viewport := { m.viewport with offset := o } }
  | .mouseWheelDown =>
      let o := clamp (m.viewport.offset + 3) 0
        ((m.source.lines.length : Int) - m.viewport.height + 2)
      { m with viewport := { m.viewport with offset := o } }
  | .mouseLeft mx my =>
      let x : Int := mx - 6
      let row : Int := m.viewport.offset + my
      let line := lineAt m.source.lines row
      let pos : Int :=
        if 0 < line.indentation then
          Int.tdiv (min x (line.indentation : Int)) 4 +
            clamp (x - (line.indentation : Int)) 0 (line.endPos : Int)
        else x
      let c := clamp ((line.start : Int) + pos) (line.start : Int) ((line.endPos : Int) + 1)
      { m with source := { m.source with cursor := c } }
  | .treeReload t c =>
      { m with source := { m.source with colors := c, tree := t } }

/-- Capture produced by running the highlight query: a capture name and the
byte range `[startByte, endByte)` of the captured node. -/
structure Capture where
  name : String
  startByte : Nat
  endByte : Nat
deriving Repr, DecidableEq

/-- Capture-name to color switch of `GenerateSyntaxTree`
(buffer.go lines 337-372). -/
def captureColor (name : String) : Nat :=
  match name with
  | "attribute" => 0x0E
  | "comment" => 0x03
  | "constant.builtin" => 0x09
  | "escape" => 0x0C
  | "function" | "function.method" | "function.macro" => 0x0D
  | "keyword" => 0x0E
  | "label" => 0x0C
  | "number" => 0x09
  | "operator" => 0x0C
  | "package" => 0x0D
  | "property" => 0x0D
  | "punctuation.bracket" => 0x05
  | "string" => 0x0B
  | "type" | "type.builtin" => 0x0A
  | "variable.member" => 0x0C
  | "variable.parameter" => 0x08
  | _ => 0x05

/-- The write loop `for index := StartByte; index < EndByte; index++
{ colors[index] = color }` of `GenerateSyntaxTree` (buffer.go lines 374-376). -/
def writeRange (colors : List Nat) (index stop color : Nat) : List Nat :=
  if index < stop then writeRange (colors.set index color) (index + 1) stop color
  else colors
termination_by stop - index

/-- Color construction of `GenerateSyntaxTree` (buffer.go lines 297, 323-379):
start from `bytes.Repeat([]byte{0x05}, len(data))` and paint every capture's
range, in the order the query cursor yields the captures. -/
def applyCaptures (data : List Nat) (captures : List Capture) : List Nat :=
  captures.foldl
    (fun colors c => writeRange colors c.startByte c.endByte (captureColor c.name))
    (List.replicate data.length 5)

/-- Outcome of the command returned by `GenerateSyntaxTree`: either a
`TreeReloadMsg` or a fatal `log.Panicf` abort of the process. -/
inductive HighlightResult where
  | msg (tree : Option Unit) (colors : List Nat)
  | fatal (message : String)
deriving Repr, DecidableEq

/-- GenerateSyntaxTree (buffer.go lines 294-386): the supported extensions
are exactly ".go", ".rs" and ".nix"; any other extension hits
`log.Panicf("Unsupported language: %s", ext)`. For a supported extension the
external parser and query engine produce the ordered capture list `captures`
(they are external collaborators), and the message colors are built from it. -/
def generateSyntaxTree (data : List Nat) (ext : String) (captures : List Capture) :
    HighlightResult :=
  if ext = ".go" ∨ ext = ".rs" ∨ ext = ".nix" then
    .msg (some ()) (applyCaptures data captures)
  else
    .fatal ("Unsupported language: " ++ ext)

/-! Specification-level functions used to state the theorems. -/

/-- Whitespace test used by the indentation rules: tab (9) or space (32). -/
def isWs (b : Nat) : Bool := b == 9 || b == 32

/-- Visual indentation width of a byte sequence: 4 per leading tab, 1 per
leading space, stopping at the first other byte. -/
def indentOf : List Nat → Nat
  | [] => 0
  | b :: rest =>
      if b = 9 then 4 + indentOf rest
      else if b = 32 then 1 + indentOf rest
      else 0

/-- Offsets of the newline bytes of `l`, in increasing order. -/
def nlPositions (l : List Nat) : List Nat :=
  (List.range l.length).filter (fun i => l.getD i 0 == 10)

/-- Start offset of row `k` given the newline offsets `ps`: row 0 starts at
0, row `k` starts one past the `(k-1)`-th newline. -/
def rowStart (ps : List Nat) (k : Nat) : Nat :=
  if k = 0 then 0 else ps.getD (k - 1) 0 + 1

/-- Expected value of the row index built by `SetSource`: one row per
newline, ending at that newline, starting one past the previous one, with
the indentation of its leading whitespace. -/
def linesSpec (source : List Nat) : List LineInfo :=
  (List.range (nlPositions source).length).map fun k =>
    { start := rowStart (nlPositions source) k,
      endPos := (nlPositions source).getD k 0,
      indentation := indentOf (source.drop (rowStart (nlPositions source) k)) }

/-- Start offset of the row the scan is currently inside. -/
def curStart (source : List Nat) : Nat :=
  rowStart (nlPositions source) (nlPositions source).length

/-- Modelled from the spec: the claimed click-to-cursor formula of §4.4 in
which the upper bound of the content clamp is the line *length*
(`lineLength = end - start`), stated for comparison with the code, which
uses the absolute offset `line.end` instead. -/
def clickCursorClaimed (lines : List LineInfo) (offset x y : Int) : Int :=
  let line := lineAt lines (offset + y)
  let lineLength : Int := (line.endPos : Int) - (line.start : Int)
  let pos : Int :=
    if 0 < line.indentation then
      Int.tdiv (min x (line.indentation : Int)) 4 +
        clamp (x - (line.indentation : Int)) 0 lineLength
    else x
  clamp ((line.start : Int) + pos) (line.start : Int) ((line.endPos : Int) + 1)

/-- Sample buffer with content "ab\n  cd\n" (bytes 97 98 10 32 32 99 100 10). -/
def sampleSource : SourceCode := setSource [97, 98, 10, 32, 32, 99, 100, 10]

/-- Sample model: sample buffer, viewport at offset 0, 80 by 24. -/
def sampleModel : Model :=
  { ready := true, source := sampleSource,
    viewport := { offset := 0, width := 80, height := 24 } }

/-- Invariant of the `SetSource` scan loop after processing the prefix
`pre`: the counters match, the committed rows are `linesSpec pre`, the
`prevLine = currentLine` test detects exactly "inside an open row", and
inside an open row `foundChar` and `lineInfo` describe the row read so far. -/
def goodState (pre : List Nat) (st : ScanState) : Prop :=
  st.i = pre.length ∧
  st.currentLine = (nlPositions pre).length ∧
  st.lines = linesSpec pre ∧
  (st.prevLine = (st.currentLine : Int) ↔ pre ≠ [] ∧ pre.getLast? ≠ some 10) ∧
  (pre ≠ [] ∧ pre.getLast? ≠ some 10 →
    st.foundChar = !((pre.drop (curStart pre)).all isWs) ∧
    st.lineInfo = { start := curStart pre, endPos := curStart pre,
                    indentation := indentOf (pre.drop (curStart pre)) })

/-- One keyboard step of C8: the "l" key applies `cursorRight 1` and the
"h" key applies `cursorLeft 1`. -/
def moveStep (s : SourceCode) (right : Bool) : SourceCode :=
  if right then cursorRight s 1 else cursorLeft s 1

/-- Any finite sequence of single-byte left and right cursor moves. -/
def applyMoves (s : SourceCode) (ops : List Bool) : SourceCode :=
  ops.foldl moveStep s

/-! Lemmas about the specification-level functions. -/

theorem getD_concat_self {α : Type} (l : List α) (b : α) (d : α) :
    (l ++ [b]).getD l.length d = b := by
  rw [List.getD_append_right _ _ _ _ (le_refl _)]
  simp

theorem nlPositions_concat (l : List Nat) (b : Nat) :
    nlPositions (l ++ [b]) = nlPositions l ++ (if b = 10 then [l.length] else []) := by
  unfold nlPositions
  rw [List.length_append, List.length_singleton, List.range_succ, List.filter_append]
  congr 1
  · exact List.filter_congr fun i hi => by
      rw [List.getD_append _ _ _ _ (List.mem_range.mp hi)]
  · rw [List.filter_singleton]
    by_cases hb : b = 10
    · simp [hb, getD_concat_self]
    · have hf : (b == 10) = false := beq_eq_false_iff_ne.mpr hb
      simp [getD_concat_self, hf, hb]

theorem mem_nlPositions {l : List Nat} {p : Nat} (h : p ∈ nlPositions l) :
    p < l.length ∧ l.getD p 0 = 10 := by
  unfold nlPositions at h
  obtain ⟨h1, h2⟩ := List.mem_filter.mp h
  exact ⟨List.mem_range.mp h1, by simpa using h2⟩

theorem nlPositions_pairwise (l : List Nat) : (nlPositions l).Pairwise (· < ·) :=
  List.Pairwise.filter _ (List.pairwise_lt_range l.length)

theorem nlPositions_getD_lt (l : List Nat) {j k : Nat} (hjk : j < k)
    (hk : k < (nlPositions l).length) :
    (nlPositions l).getD j 0 < (nlPositions l).getD k 0 := by
  have hj : j < (nlPositions l).length := lt_trans hjk hk
  rw [List.getD_eq_getElem _ _ hj, List.getD_eq_getElem _ _ hk]
  exact List.pairwise_iff_getElem.mp (nlPositions_pairwise l) j k hj hk hjk

theorem nlPositions_getD_lt_length (l : List Nat) {k : Nat}
    (hk : k < (nlPositions l).length) :
    (nlPositions l).getD k 0 < l.length := by
  rw [List.getD_eq_getElem _ _ hk]
  exact (mem_nlPositions (List.getElem_mem hk)).1

theorem nlPositions_getD_is_nl (l : List Nat) {k : Nat}
    (hk : k < (nlPositions l).length) :
    l.getD ((nlPositions l).getD k 0) 0 = 10 := by
  rw [List.getD_eq_getElem _ _ hk]
  exact (mem_nlPositions (List.getElem_mem hk)).2

theorem rowStart_le_getD (l : List Nat) {k : Nat} (hk : k < (nlPositions l).length) :
    rowStart (nlPositions l) k ≤ (nlPositions l).getD k 0 := by
  unfold rowStart
  by_cases h0 : k = 0
  · simp [h0]
  · rw [if_neg h0]
    have := nlPositions_getD_lt l (j := k - 1) (k := k) (by omega) hk
    omega

theorem curStart_le_length (l : List Nat) : curStart l ≤ l.length := by
  unfold curStart rowStart
  by_cases h0 : (nlPositions l).length = 0
  · simp [h0]
  · rw [if_neg h0]
    have := nlPositions_getD_lt_length l (k := (nlPositions l).length - 1) (by omega)
    omega

theorem curStart_concat (l : List Nat) (b : Nat) :
    curStart (l ++ [b]) = if b = 10 then l.length + 1 else curStart l := by
  unfold curStart
  rw [nlPositions_concat]
  by_cases hb : b = 10
  · rw [if_pos hb, if_pos hb, List.length_append, List.length_singleton]
    unfold rowStart
    rw [if_neg (by omega)]
    rw [show (nlPositions l).length + 1 - 1 = (nlPositions l).length by omega]
    rw [getD_concat_self]
  · rw [if_neg hb, if_neg hb, List.append_nil]

theorem curStart_of_getLast_nl {l : List Nat} (h : l.getLast? = some 10) :
    curStart l = l.length := by
  obtain ⟨l', rfl⟩ := List.getLast?_eq_some_iff.mp h
  rw [curStart_concat, if_pos rfl, List.length_append, List.length_singleton]

theorem indentOf_append_all {l : List Nat} (r : List Nat) (h : l.all isWs = true) :
    indentOf (l ++ r) = indentOf l + indentOf r := by
  induction l with
  | nil => simp [indentOf]
  | cons a tl ih =>
    rw [List.all_cons, Bool.and_eq_true] at h
    have ha : a = 9 ∨ a = 32 := by
      have := h.1
      unfold isWs at this
      simpa using this
    rcases ha with ha | ha <;> subst ha <;> simp [indentOf, ih h.2] <;> omega

theorem indentOf_append_nonws {l : List Nat} (r : List Nat) (h : l.all isWs = false) :
    indentOf (l ++ r) = indentOf l := by
  induction l with
  | nil => simp at h
  | cons a tl ih =>
    rw [List.all_cons, Bool.and_eq_false_iff] at h
    by_cases ha : a = 9 ∨ a = 32
    · have htl : tl.all isWs = false := by
        rcases h with h | h
        · exfalso
          unfold isWs at h
          rcases ha with ha | ha <;> simp [ha] at h
        · exact h
      rcases ha with ha | ha <;> subst ha <;> simp [indentOf, ih htl]
    · push_neg at ha
      simp [indentOf, ha.1, ha.2]

theorem all_isWs_drop_eq_false (l : List Nat) {s p : Nat} (hsp : s ≤ p)
    (hp : p < l.length) (h10 : l.getD p 0 = 10) :
    (l.drop s).all isWs = false := by
  rw [List.all_eq_false]
  have hlen : p - s < (l.drop s).length := by
    rw [List.length_drop]
    omega
  have hval : (l.drop s)[p - s] = 10 := by
    rw [List.getElem_drop]
    have hb : s + (p - s) < l.length := by omega
    rw [← List.getD_eq_getElem l 0 hb, show s + (p - s) = p by omega, h10]
  exact ⟨10, List.mem_iff_getElem.mpr ⟨p - s, hlen, hval⟩, by decide⟩

theorem indentOf_drop_concat (l : List Nat) (b : Nat) {s p : Nat} (hsp : s ≤ p)
    (hp : p < l.length) (h10 : l.getD p 0 = 10) :
    indentOf ((l ++ [b]).drop s) = indentOf (l.drop s) := by
  rw [List.drop_append_of_le_length (le_of_lt (lt_of_le_of_lt hsp hp))]
  exact indentOf_append_nonws _ (all_isWs_drop_eq_false l hsp hp h10)

theorem linesSpec_length (l : List Nat) :
    (linesSpec l).length = (nlPositions l).length := by
  unfold linesSpec
  rw [List.length_map, List.length_range]

theorem linesSpec_getD (l : List Nat) {k : Nat} (hk : k < (nlPositions l).length)
    (d : LineInfo) :
    (linesSpec l).getD k d =
      { start := rowStart (nlPositions l) k,
        endPos := (nlPositions l).getD k 0,
        indentation := indentOf (l.drop (rowStart (nlPositions l) k)) } := by
  have hk' : k < (linesSpec l).length := by rw [linesSpec_length]; exact hk
  rw [List.getD_eq_getElem _ _ hk']
  unfold linesSpec
  simp

theorem linesSpec_concat (l : List Nat) (b : Nat) :
    linesSpec (l ++ [b]) =
      linesSpec l ++
        (if b = 10 then
          [{ start := curStart l, endPos := l.length,
             indentation := indentOf (l.drop (curStart l) ++ [b]) }]
         else []) := by
  by_cases hb : b = 10
  · rw [if_pos hb]
    unfold linesSpec
    simp only [nlPositions_concat, if_pos hb]
    rw [List.length_append, List.length_singleton, List.range_succ, List.map_append]
    congr 1
    · apply List.map_congr_left
      intro k hk
      have hk' : k < (nlPositions l).length := List.mem_range.mp hk
      have hrs : rowStart (nlPositions l ++ [l.length]) k = rowStart (nlPositions l) k := by
        unfold rowStart
        by_cases h0 : k = 0
        · simp [h0]
        · rw [if_neg h0, if_neg h0, List.getD_append _ _ _ _ (by omega)]
      have h1 := rowStart_le_getD l hk'
      have h2 := nlPositions_getD_lt_length l hk'
      have h3 := nlPositions_getD_is_nl l hk'
      rw [hrs, List.getD_append _ _ _ _ hk', indentOf_drop_concat l b h1 h2 h3]
    · simp only [List.map_cons, List.map_nil]
      have hrs : rowStart (nlPositions l ++ [l.length]) (nlPositions l).length =
          curStart l := by
        unfold curStart rowStart
        by_cases h0 : (nlPositions l).length = 0
        · simp [h0]
        · rw [if_neg h0, if_neg h0, List.getD_append _ _ _ _ (by omega)]
      rw [hrs, getD_concat_self, List.drop_append_of_le_length (curStart_le_length l)]
  · rw [if_neg hb, List.append_nil]
    unfold linesSpec
    simp only [nlPositions_concat, if_neg hb, List.append_nil]
    apply List.map_congr_left
    intro k hk
    have hk' : k < (nlPositions l).length := List.mem_range.mp hk
    have h1 := rowStart_le_getD l hk'
    have h2 := nlPositions_getD_lt_length l hk'
    have h3 := nlPositions_getD_is_nl l hk'
    rw [indentOf_drop_concat l b h1 h2 h3]

theorem goodState_init : goodState [] scanInit := by
  refine ⟨rfl, rfl, rfl, ?_, ?_⟩
  · constructor
    · intro h
      exact absurd h (by decide)
    · rintro ⟨h, -⟩
      exact absurd rfl h
  · rintro ⟨h, -⟩
    exact absurd rfl h

theorem indentOf_concat_nl (cur : List Nat) :
    indentOf (cur ++ [10]) = indentOf cur := by
  cases hall : cur.all isWs
  · exact indentOf_append_nonws _ hall
  · rw [indentOf_append_all _ hall]
    simp [indentOf]

theorem goodState_intro (pre : List Nat) (L : List LineInfo) (i : Nat) (pl : Int)
    (cl : Nat) (fc : Bool) (li : LineInfo)
    (h1 : i = pre.length)
    (h2 : cl = (nlPositions pre).length)
    (h3 : L = linesSpec pre)
    (h4 : (pl = (cl : Int)) ↔ (pre ≠ [] ∧ pre.getLast? ≠ some 10))
    (h5 : pre ≠ [] ∧ pre.getLast? ≠ some 10 →
      fc = !((pre.drop (curStart pre)).all isWs) ∧
      li = { start := curStart pre, endPos := curStart pre,
             indentation := indentOf (pre.drop (curStart pre)) }) :
    goodState pre ⟨L, i, pl, cl, fc, li⟩ :=
  ⟨h1, h2, h3, h4, h5⟩

theorem goodState_step (pre : List Nat) (st : ScanState) (b : Nat)
    (h : goodState pre st) : goodState (pre ++ [b]) (scanStep st b) := by
  obtain ⟨hi, hcl, hlines, hprev, hmid⟩ := h
  have hlast : (pre ++ [b]).getLast? = some b := List.getLast?_concat pre
  have hne : pre ++ [b] ≠ [] := by simp
  have hdropc : (pre ++ [b]).drop (curStart pre) = pre.drop (curStart pre) ++ [b] :=
    List.drop_append_of_le_length (curStart_le_length pre)
  by_cases hm : pre ≠ [] ∧ pre.getLast? ≠ some 10
  · -- no reset: the scan is inside an open row
    have hpl : st.prevLine = (st.currentLine : Int) := hprev.mpr hm
    obtain ⟨hfc, hli⟩ := hmid hm
    by_cases hb10 : b = 10
    · -- terminator: the open row is committed
      subst hb10
      have heval : scanStep st 10 =
          ⟨st.lines ++ [⟨st.lineInfo.start, st.i, st.lineInfo.indentation⟩], st.i + 1,
            st.prevLine, st.currentLine + 1, true,
            ⟨st.lineInfo.start, st.i, st.lineInfo.indentation⟩⟩ := by
        simp [scanStep, hpl]
      rw [heval]
      refine goodState_intro _ _ _ _ _ _ _ (by simp [hi]) ?_ ?_ ?_ ?_
      · rw [nlPositions_concat]
        simp [hcl]
      · rw [linesSpec_concat, if_pos rfl, hlines, hli, hi]
        simp [indentOf_concat_nl]
      · refine iff_of_false ?_ ?_
        · rw [hpl]
          omega
        · rw [hlast]
          simp
      · rintro ⟨-, hc⟩
        exact absurd hlast hc
    · -- ordinary byte inside an open row
      have hcs : curStart (pre ++ [b]) = curStart pre := by
        rw [curStart_concat, if_neg hb10]
      have h2 : st.currentLine = (nlPositions (pre ++ [b])).length := by
        rw [nlPositions_concat, if_neg hb10, List.append_nil, hcl]
      have h3 : st.lines = linesSpec (pre ++ [b]) := by
        rw [linesSpec_concat, if_neg hb10, List.append_nil, hlines]
      have h4 : (st.prevLine = (st.currentLine : Int)) ↔
          (pre ++ [b] ≠ [] ∧ (pre ++ [b]).getLast? ≠ some 10) := by
        refine iff_of_true hpl ⟨hne, ?_⟩
        rw [hlast]
        simp [hb10]
      cases hall : (pre.drop (curStart pre)).all isWs
      · -- a non-whitespace byte was already seen on this row
        have hfc2 : st.foundChar = true := by rw [hfc, hall]; rfl
        have hc1 : ¬(b = 9 ∧ st.foundChar = false) := by simp [hfc2]
        have hc2 : ¬(b = 32 ∧ st.foundChar = false) := by simp [hfc2]
        have heval : scanStep st b =
            ⟨st.lines, st.i + 1, st.prevLine, st.currentLine, true, st.lineInfo⟩ := by
          simp [scanStep, hpl, hc1, hc2, hb10]
        rw [heval]
        refine goodState_intro _ _ _ _ _ _ _ (by simp [hi]) h2 h3 h4 fun _ => ⟨?_, ?_⟩
        · rw [hcs, hdropc, List.all_append, hall]
          rfl
        · rw [hli, hcs, hdropc, indentOf_append_nonws _ hall]
      · -- the row so far is all whitespace
        have hfc2 : st.foundChar = false := by rw [hfc, hall]; rfl
        by_cases hb9 : b = 9
        · subst hb9
          have heval : scanStep st 9 =
              ⟨st.lines, st.i + 1, st.prevLine, st.currentLine, st.foundChar,
                ⟨st.lineInfo.start, st.lineInfo.endPos, st.lineInfo.indentation + 4⟩⟩ := by
            simp [scanStep, hpl, hfc2]
          rw [heval]
          refine goodState_intro _ _ _ _ _ _ _ (by simp [hi]) h2 h3 h4 fun _ => ⟨?_, ?_⟩
          · rw [hfc, hcs, hdropc, List.all_append, hall]
            rfl
          · rw [hli, hcs, hdropc, indentOf_append_all _ hall]
            rfl
        · by_cases hb32 : b = 32
          · subst hb32
            have heval : scanStep st 32 =
                ⟨st.lines, st.i + 1, st.prevLine, st.currentLine, st.foundChar,
                  ⟨st.lineInfo.start, st.lineInfo.endPos, st.lineInfo.indentation + 1⟩⟩ := by
              simp [scanStep, hpl, hfc2]
            rw [heval]
            refine goodState_intro _ _ _ _ _ _ _ (by simp [hi]) h2 h3 h4 fun _ => ⟨?_, ?_⟩
            · rw [hfc, hcs, hdropc, List.all_append, hall]
              rfl
            · rw [hli, hcs, hdropc, indentOf_append_all _ hall]
              rfl
          · -- first non-whitespace byte of the row
            have hwsb : isWs b = false := by
              unfold isWs
              simp [hb9, hb32]
            have hc1 : ¬(b = 9 ∧ st.foundChar = false) := by simp [hb9]
            have hc2 : ¬(b = 32 ∧ st.foundChar = false) := by simp [hb32]
            have hindb : indentOf [b] = 0 := by
              unfold indentOf
              simp [hb9, hb32]
            have heval : scanStep st b =
                ⟨st.lines, st.i + 1, st.prevLine, st.currentLine, true, st.lineInfo⟩ := by
              simp [scanStep, hpl, hc1, hc2, hb10]
            rw [heval]
            refine goodState_intro _ _ _ _ _ _ _ (by simp [hi]) h2 h3 h4 fun _ => ⟨?_, ?_⟩
            · rw [hcs, hdropc, List.all_append, hall]
              simp [hwsb]
            · rw [hli, hcs, hdropc, indentOf_append_all _ hall, hindb]
              simp
  · -- reset: the previous byte (if any) closed a row
    have hpl : st.prevLine ≠ (st.currentLine : Int) := fun hc => hm (hprev.mp hc)
    have hcs0 : curStart pre = pre.length := by
      rcases not_and_or.mp hm with h1 | h2
      · push_neg at h1
        subst h1
        rfl
      · push_neg at h2
        exact curStart_of_getLast_nl h2
    have hdropb : (pre ++ [b]).drop pre.length = [b] := by
      rw [List.drop_append_of_le_length (le_refl _), List.drop_length, List.nil_append]
    by_cases hb10 : b = 10
    · -- a lone terminator: commit the row that just started, empty
      subst hb10
      have heval : scanStep st 10 =
          ⟨st.lines ++ [⟨st.i, st.i, 0⟩], st.i + 1, (st.currentLine : Int),
            st.currentLine + 1, true, ⟨st.i, st.i, 0⟩⟩ := by
        simp [scanStep, hpl]
      rw [heval]
      refine goodState_intro _ _ _ _ _ _ _ (by simp [hi]) ?_ ?_ ?_ ?_
      · rw [nlPositions_concat]
        simp [hcl]
      · rw [linesSpec_concat, if_pos rfl, hlines, hcs0, List.drop_length, hi]
        rfl
      · refine iff_of_false (by omega) ?_
        rw [hlast]
        simp
      · rintro ⟨-, hc⟩
        exact absurd hlast hc
    · -- an ordinary byte starts a fresh row
      have hcs : curStart (pre ++ [b]) = pre.length := by
        rw [curStart_concat, if_neg hb10, hcs0]
      have h2 : st.currentLine = (nlPositions (pre ++ [b])).length := by
        rw [nlPositions_concat, if_neg hb10, List.append_nil, hcl]
      have h3 : st.lines = linesSpec (pre ++ [b]) := by
        rw [linesSpec_concat, if_neg hb10, List.append_nil, hlines]
      have h4 : ((st.currentLine : Int) = (st.currentLine : Int)) ↔
          (pre ++ [b] ≠ [] ∧ (pre ++ [b]).getLast? ≠ some 10) := by
        refine iff_of_true rfl ⟨hne, ?_⟩
        rw [hlast]
        simp [hb10]
      by_cases hb9 : b = 9
      · subst hb9
        have heval : scanStep st 9 =
            ⟨st.lines, st.i + 1, (st.currentLine : Int), st.currentLine, false,
              ⟨st.i, st.i, 0 + 4⟩⟩ := by
          simp [scanStep, hpl]
        rw [heval]
        refine goodState_intro _ _ _ _ _ _ _ (by simp [hi]) h2 h3 h4 fun _ => ⟨?_, ?_⟩
        · rw [hcs, hdropb]
          rfl
        · rw [hcs, hdropb, hi]
          rfl
      · by_cases hb32 : b = 32
        · subst hb32
          have heval : scanStep st 32 =
              ⟨st.lines, st.i + 1, (st.currentLine : Int), st.currentLine, false,
                ⟨st.i, st.i, 0 + 1⟩⟩ := by
            simp [scanStep, hpl]
          rw [heval]
          refine goodState_intro _ _ _ _ _ _ _ (by simp [hi]) h2 h3 h4 fun _ => ⟨?_, ?_⟩
          · rw [hcs, hdropb]
            rfl
          · rw [hcs, hdropb, hi]
            rfl
        · have hwsb : isWs b = false := by
            unfold isWs
            simp [hb9, hb32]
          have hindb : indentOf [b] = 0 := by
            unfold indentOf
            simp [hb9, hb32]
          have hc1 : ¬(b = 9 ∧ False) := by simp
          have heval : scanStep st b =
              ⟨st.lines, st.i + 1, (st.currentLine : Int), st.currentLine, true,
                ⟨st.i, st.i, 0⟩⟩ := by
            simp [scanStep, hpl, hb9, hb32, hb10]
          rw [heval]
          refine goodState_intro _ _ _ _ _ _ _ (by simp [hi]) h2 h3 h4 fun _ => ⟨?_, ?_⟩
          · rw [hcs, hdropb]
            simp [hwsb]
          · rw [hcs, hdropb, hi, hindb]


theorem goodState_foldl (source : List Nat) : ∀ (pre : List Nat) (st : ScanState),
    goodState pre st → goodState (pre ++ source) (source.foldl scanStep st) := by
  induction source with
  | nil =>
    intro pre st h
    simpa using h
  | cons b tl ih =>
    intro pre st h
    have h2 := ih (pre ++ [b]) (scanStep st b) (goodState_step pre st b h)
    rw [List.append_assoc] at h2
    simpa using h2

/-- The row index built by `SetSource` is exactly `linesSpec`. -/
theorem setSource_lines (source : List Nat) :
    (setSource source).lines = linesSpec source := by
  have h := goodState_foldl source [] scanInit goodState_init
  rw [List.nil_append] at h
  exact h.2.2.1

theorem getD_drop (l : List Nat) (s j : Nat) (h : s + j < l.length) :
    (l.drop s).getD j 0 = l.getD (s + j) 0 := by
  have h2 : j < (l.drop s).length := by
    rw [List.length_drop]
    omega
  rw [List.getD_eq_getElem _ _ h2, List.getD_eq_getElem _ _ h]
  exact List.getElem_drop l

theorem indentOf_cons (b : Nat) (tl : List Nat) :
    indentOf (b :: tl) =
      if b = 9 then 4 + indentOf tl else if b = 32 then 1 + indentOf tl else 0 := rfl

theorem indentOf_eq_counts (l : List Nat) :
    indentOf l = 4 * (l.takeWhile isWs).count 9 + 1 * (l.takeWhile isWs).count 32 := by
  induction l with
  | nil => simp [indentOf]
  | cons b tl ih =>
    rw [indentOf_cons]
    by_cases hb9 : b = 9
    · subst hb9
      rw [if_pos rfl, List.takeWhile_cons_of_pos (by decide)]
      simp [List.count_cons, ih]
      omega
    · by_cases hb32 : b = 32
      · subst hb32
        rw [if_neg (by decide), if_pos rfl, List.takeWhile_cons_of_pos (by decide)]
        simp [List.count_cons, ih]
        omega
      · have hws : isWs b = false := by
          unfold isWs
          simp [hb9, hb32]
        rw [if_neg hb9, if_neg hb32, List.takeWhile_cons_of_neg (by simp [hws])]
        simp

theorem takeWhile_take_of_not (l : List Nat) (j : Nat) (hj : j < l.length)
    (hws : isWs (l.getD j 0) = false) :
    l.takeWhile isWs = (l.take j).takeWhile isWs := by
  induction l generalizing j with
  | nil => simp at hj
  | cons b tl ih =>
    cases j with
    | zero =>
      have hb : isWs b = false := by simpa using hws
      rw [List.takeWhile_cons_of_neg (by simp [hb]), List.take_zero]
      rfl
    | succ j2 =>
      by_cases hb : isWs b = true
      · rw [List.takeWhile_cons_of_pos hb, List.take_succ_cons,
          List.takeWhile_cons_of_pos hb,
          ih j2 (by simpa using hj) (by simpa using hws)]
      · have hb2 : isWs b = false := by simpa using hb
        rw [List.takeWhile_cons_of_neg (by simp [hb2]), List.take_succ_cons,
          List.takeWhile_cons_of_neg (by simp [hb2])]

/-- C10: the "j" and "k" key handlers call `cursorDown`/`cursorUp`, whose
bodies are empty, so handling either key leaves the whole model (hence the
buffer's data, colors, cursor, tree and lines) unchanged, for every state
and every argument. -/
theorem vertical_cursor_keys_are_noops (m : Model) (s : SourceCode) (n : Int) :
    update m (.key "j") = m ∧ update m (.key "k") = m ∧
    cursorDown s n = s ∧ cursorUp s n = s :=
  ⟨rfl, rfl, rfl, rfl⟩

/-- C1 counterexample: starting from a buffer satisfying
`len(colors) = len(data)` (the sample buffer has 8 bytes of data and 8
colors), handling a `TreeReloadMsg` whose colors have length 0 leaves the
buffer with 0 colors and 8 data bytes: the stale result is applied, not
discarded, and the invariant is broken. -/
theorem treeReload_mismatched_colors_applied :
    sampleModel.source.colors.length = sampleModel.source.data.length ∧
    (update sampleModel (.treeReload none [])).source.colors.length ≠
      (update sampleModel (.treeReload none [])).source.data.length := by
  decide

/-- C1 amended: the `TreeReloadMsg` handler performs no staleness check at
all: it replaces `colors` and `tree` wholesale and leaves `data` unchanged,
so the invariant `len(colors) = len(data)` holds after the handler exactly
when the message's colors already have the live buffer's data length. -/
theorem treeReload_replaces_colors_unconditionally (m : Model) (t : Option Unit)
    (c : List Nat) :
    (update m (.treeReload t c)).source.colors = c ∧
    (update m (.treeReload t c)).source.tree = t ∧
    (update m (.treeReload t c)).source.data = m.source.data ∧
    ((update m (.treeReload t c)).source.colors.length =
        (update m (.treeReload t c)).source.data.length ↔
      c.length = m.source.data.length) :=
  ⟨rfl, rfl, rfl, Iff.rfl⟩

/-- C3 counterexample: requesting highlighting for the unregistered
extension ".xyz" does not produce a recoverable condition; it reaches
`log.Panicf`, i.e. a fatal abort of the host process. -/
theorem unsupported_extension_aborts :
    generateSyntaxTree [] ".xyz" [] = .fatal "Unsupported language: .xyz" := by
  decide

/-- C3 amended: for every extension without a registered grammar/query pair
the command returned by `GenerateSyntaxTree` panics (terminates the host)
instead of failing recoverably; consequently no `TreeReloadMsg` is produced
and the buffer's colors remain exactly as `SetSource` initialized them:
entirely the default class 0x05. -/
theorem unsupported_extension_fatal_and_colors_default (data : List Nat)
    (cs : List Capture) (ext : String)
    (h1 : ext ≠ ".go") (h2 : ext ≠ ".rs") (h3 : ext ≠ ".nix") (src : List Nat) :
    generateSyntaxTree data ext cs = .fatal ("Unsupported language: " ++ ext) ∧
    (setSource src).colors = List.replicate src.length 5 := by
  constructor
  · simp [generateSyntaxTree, h1, h2, h3]
  · rfl

/-- C3 witness: the amended statement applied to the extension ".xyz" and a
concrete two-byte buffer. -/
theorem unsupported_extension_fatal_witness :
    generateSyntaxTree [104, 105] ".xyz" [] =
      .fatal ("Unsupported language: " ++ ".xyz") ∧
    (setSource [104, 105]).colors = List.replicate 2 5 :=
  unsupported_extension_fatal_and_colors_default [104, 105] [] ".xyz"
    (by decide) (by decide) (by decide) [104, 105]

/-- C9: a left-click whose target row `viewport.offset + y` has no entry in
the lines mapping yields the zero-value `LineInfo`, and
`clamp(0 + pos, 0, 0 + 1) = 0` for every `pos`, so the cursor is set to
byte offset 0 regardless of the click's column. -/
theorem click_on_missing_row_resets_cursor (m : Model) (mx my : Int)
    (h : ¬ (0 ≤ m.viewport.offset + my ∧
        (m.viewport.offset + my).toNat < m.source.lines.length)) :
    (update m (.mouseLeft mx my)).source.cursor = 0 := by
  have hline : lineAt m.source.lines (m.viewport.offset + my) =
      { start := 0, endPos := 0, indentation := 0 } := by
    unfold lineAt
    by_cases h0 : 0 ≤ m.viewport.offset + my
    · have hlen : m.source.lines.length ≤ (m.viewport.offset + my).toNat := by
        rcases not_and_or.mp h with h1 | h2
        · exact absurd h0 h1
        · omega
      have hnone : m.source.lines[(m.viewport.offset + my).toNat]? = none :=
        List.getElem?_eq_none hlen
      simp [h0, List.getD, hnone]
    · simp [h0]
  simp [update, hline, clamp]

/-- C9 witness: clicking at screen row 99 of the two-line sample buffer
(any column, here 42) sets the cursor to 0. -/
theorem click_on_missing_row_resets_cursor_witness :
    (update sampleModel (.mouseLeft 42 99)).source.cursor = 0 :=
  click_on_missing_row_resets_cursor sampleModel 42 99 (by decide)

/-- C6: every scroll operation (half page up and down via ctrl+u and
ctrl+d, wheel up and down by a fixed 3 rows) leaves the viewport offset
inside `[0, max 0 (rowCount - height + 2)]`, from any starting offset; the
wheel deltas are exactly plus and minus 3, and for a nonnegative height the
half-page delta is exactly `height / 2` rounded down (floor). -/
theorem scroll_offset_clamped (m : Model) :
    (0 ≤ (update m (.key "ctrl+u")).viewport.offset ∧
      (update m (.key "ctrl+u")).viewport.offset ≤
        max 0 ((m.source.lines.length : Int) - m.viewport.height + 2)) ∧
    (0 ≤ (update m (.key "ctrl+d")).viewport.offset ∧
      (update m (.key "ctrl+d")).viewport.offset ≤
        max 0 ((m.source.lines.length : Int) - m.viewport.height + 2)) ∧
    (0 ≤ (update m .mouseWheelUp).viewport.offset ∧
      (update m .mouseWheelUp).viewport.offset ≤
        max 0 ((m.source.lines.length : Int) - m.viewport.height + 2)) ∧
    (0 ≤ (update m .mouseWheelDown).viewport.offset ∧
      (update m .mouseWheelDown).viewport.offset ≤
        max 0 ((m.source.lines.length : Int) - m.viewport.height + 2)) ∧
    ((update m .mouseWheelUp).viewport.offset =
      clamp (m.viewport.offset - 3) 0
        ((m.source.lines.length : Int) - m.viewport.height + 2)) ∧
    ((update m .mouseWheelDown).viewport.offset =
      clamp (m.viewport.offset + 3) 0
        ((m.source.lines.length : Int) - m.viewport.height + 2)) ∧
    (0 ≤ m.viewport.height →
      (update m (.key "ctrl+u")).viewport.offset =
        clamp (m.viewport.offset - Int.fdiv m.viewport.height 2) 0
          ((m.source.lines.length : Int) - m.viewport.height + 2) ∧
      (update m (.key "ctrl+d")).viewport.offset =
        clamp (m.viewport.offset + Int.fdiv m.viewport.height 2) 0
          ((m.source.lines.length : Int) - m.viewport.height + 2)) := by
  have hu : (update m (.key "ctrl+u")).viewport.offset =
      clamp (m.viewport.offset - Int.tdiv m.viewport.height 2) 0
        ((m.source.lines.length : Int) - m.viewport.height + 2) := rfl
  have hd : (update m (.key "ctrl+d")).viewport.offset =
      clamp (m.viewport.offset + Int.tdiv m.viewport.height 2) 0
        ((m.source.lines.length : Int) - m.viewport.height + 2) := rfl
  have hwu : (update m .mouseWheelUp).viewport.offset =
      clamp (m.viewport.offset - 3) 0
        ((m.source.lines.length : Int) - m.viewport.height + 2) := rfl
  have hwd : (update m .mouseWheelDown).viewport.offset =
      clamp (m.viewport.offset + 3) 0
        ((m.source.lines.length : Int) - m.viewport.height + 2) := rfl
  refine ⟨?_, ?_, ?_, ?_, hwu, hwd, fun hh => ?_⟩
  · rw [hu]; unfold clamp; constructor <;> omega
  · rw [hd]; unfold clamp; constructor <;> omega
  · rw [hwu]; unfold clamp; constructor <;> omega
  · rw [hwd]; unfold clamp; constructor <;> omega
  · have h2 : Int.tdiv m.viewport.height 2 = Int.fdiv m.viewport.height 2 := by
      rw [Int.tdiv_eq_ediv hh (by omega), Int.fdiv_eq_ediv _ (by omega)]
    rw [hu, hd, h2]
    exact ⟨rfl, rfl⟩

/-- C6 witness: the clamping statement applied to the sample model (height
24, nonnegative, discharging the hypothesis of the half-page conjunct). -/
theorem scroll_offset_clamped_witness :
    0 ≤ (update sampleModel (.key "ctrl+u")).viewport.offset ∧
    (update sampleModel (.key "ctrl+u")).viewport.offset ≤
      max 0 ((sampleModel.source.lines.length : Int) - sampleModel.viewport.height + 2) ∧
    (update sampleModel (.key "ctrl+d")).viewport.offset =
      clamp (sampleModel.viewport.offset + Int.fdiv sampleModel.viewport.height 2) 0
        ((sampleModel.source.lines.length : Int) - sampleModel.viewport.height + 2) :=
  ⟨(scroll_offset_clamped sampleModel).1.1,
   (scroll_offset_clamped sampleModel).1.2,
   ((scroll_offset_clamped sampleModel).2.2.2.2.2.2 (by decide)).2⟩

theorem moveStep_data (s : SourceCode) (b : Bool) : (moveStep s b).data = s.data := by
  cases b <;> rfl

theorem moveStep_cursor_range (s : SourceCode) (b : Bool) :
    0 ≤ (moveStep s b).cursor ∧ (moveStep s b).cursor ≤ (s.data.length : Int) := by
  have h1 : (moveStep s true).cursor = clamp (s.cursor + 1) 0 (s.data.length : Int) := rfl
  have h2 : (moveStep s false).cursor = clamp (s.cursor - 1) 0 (s.data.length : Int) := rfl
  cases b
  · rw [h2]; unfold clamp; constructor <;> omega
  · rw [h1]; unfold clamp; constructor <;> omega

/-- C8: from every source state and every starting cursor value, after one
or more applications of `cursorLeft`/`cursorRight` (each moving by one
byte) the cursor offset lies in `[0, len(data)]`. -/
theorem cursor_moves_stay_in_range (s : SourceCode) (ops : List Bool) (h : ops ≠ []) :
    0 ≤ (applyMoves s ops).cursor ∧
    (applyMoves s ops).cursor ≤ (s.data.length : Int) := by
  induction ops generalizing s with
  | nil => exact absurd rfl h
  | cons b tl ih =>
    cases tl with
    | nil => simpa [applyMoves] using moveStep_cursor_range s b
    | cons b2 tl2 =>
      have := ih (moveStep s b) (by simp)
      rw [moveStep_data] at this
      simpa [applyMoves] using this

/-- C8 witness: three moves (right, right, left) from the sample buffer,
whose cursor starts at 0, stay within `[0, 8]`. -/
theorem cursor_moves_stay_in_range_witness :
    0 ≤ (applyMoves sampleSource [true, true, false]).cursor ∧
    (applyMoves sampleSource [true, true, false]).cursor ≤
      (sampleSource.data.length : Int) :=
  cursor_moves_stay_in_range sampleSource [true, true, false] (by decide)

/-- C4 counterexample: on the sample buffer, clicking at screen column 13
and row 1, i.e. gutter-adjusted column `x = 7` on the line
`{start := 3, end := 7, indentation := 2}`, the code moves the cursor to
byte 7 (the code clamps the content part of `pos` by the absolute offset
`line.end`), while the claimed formula, whose clamp bound is the line
*length* `line.end - line.start`, yields 6. -/
theorem click_lineLength_formula_differs :
    (update sampleModel (.mouseLeft 13 1)).source.cursor = 7 ∧
    clickCursorClaimed sampleModel.source.lines sampleModel.viewport.offset
      (13 - 6) 1 = 6 := by
  decide

/-- C4 amended: the click handler sets the cursor to
`clamp(line.start + pos, line.start, line.end + 1)` where
`pos = min(x, indentation)/4 + clamp(x - indentation, 0, line.end)` if the
indentation is positive (the clamp bound being the absolute offset
`line.end`, not the line length) and `pos = x` otherwise; consequently the
cursor lands in `[line.start, line.end]` (one position past the last
content byte, on the terminator), and a click at `x = 0` on a line with
indentation 0 sets the cursor to `line.start`. -/
theorem click_sets_cursor_via_line_end (m : Model) (mx my : Int) :
    (update m (.mouseLeft mx my)).source.cursor =
      clamp
        (((lineAt m.source.lines (m.viewport.offset + my)).start : Int) +
          (if 0 < (lineAt m.source.lines (m.viewport.offset + my)).indentation then
            Int.tdiv (min (mx - 6)
                ((lineAt m.source.lines (m.viewport.offset + my)).indentation : Int)) 4 +
              clamp ((mx - 6) -
                  ((lineAt m.source.lines (m.viewport.offset + my)).indentation : Int)) 0
                ((lineAt m.source.lines (m.viewport.offset + my)).endPos : Int)
          else mx - 6))
        ((lineAt m.source.lines (m.viewport.offset + my)).start : Int)
        (((lineAt m.source.lines (m.viewport.offset + my)).endPos : Int) + 1) ∧
    ((lineAt m.source.lines (m.viewport.offset + my)).start ≤
        (lineAt m.source.lines (m.viewport.offset + my)).endPos →
      ((lineAt m.source.lines (m.viewport.offset + my)).start : Int) ≤
          (update m (.mouseLeft mx my)).source.cursor ∧
        (update m (.mouseLeft mx my)).source.cursor ≤
          ((lineAt m.source.lines (m.viewport.offset + my)).endPos : Int)) ∧
    (mx - 6 = 0 →
      (lineAt m.source.lines (m.viewport.offset + my)).indentation = 0 →
      (lineAt m.source.lines (m.viewport.offset + my)).start ≤
        (lineAt m.source.lines (m.viewport.offset + my)).endPos →
      (update m (.mouseLeft mx my)).source.cursor =
        ((lineAt m.source.lines (m.viewport.offset + my)).start : Int)) := by
  have hc : (update m (.mouseLeft mx my)).source.cursor =
      clamp
        (((lineAt m.source.lines (m.viewport.offset + my)).start : Int) +
          (if 0 < (lineAt m.source.lines (m.viewport.offset + my)).indentation then
            Int.tdiv (min (mx - 6)
                ((lineAt m.source.lines (m.viewport.offset + my)).indentation : Int)) 4 +
              clamp ((mx - 6) -
                  ((lineAt m.source.lines (m.viewport.offset + my)).indentation : Int)) 0
                ((lineAt m.source.lines (m.viewport.offset + my)).endPos : Int)
          else mx - 6))
        ((lineAt m.source.lines (m.viewport.offset + my)).start : Int)
        (((lineAt m.source.lines (m.viewport.offset + my)).endPos : Int) + 1) := rfl
  refine ⟨hc, fun hse => ?_, fun hx hi hse => ?_⟩
  · rw [hc]; unfold clamp; constructor <;> omega
  · rw [hc, hi, hx, if_neg (lt_irrefl 0)]
    unfold clamp
    omega

/-- C4 witness: the amended statement at a concrete click: column 6 (so
`x = 0`) on row 0 of the sample buffer, whose line
`{start := 0, end := 2, indentation := 0}` makes the cursor land on
`line.start = 0`. -/
theorem click_sets_cursor_via_line_end_witness :
    (update sampleModel (.mouseLeft 6 0)).source.cursor =
      ((lineAt sampleModel.source.lines (sampleModel.viewport.offset + 0)).start : Int) :=
  (click_sets_cursor_via_line_end sampleModel 6 0).2.2 (by decide) (by decide) (by decide)

/-- C2 counterexample: the one-byte input "a" has no trailing terminator;
`SetSource` commits no row at all, so the row mapping is empty and does not
cover `[0, 1)`: no final line is synthesized at end of scan. -/
theorem unterminated_final_line_not_committed :
    (setSource [97]).data.length = 1 ∧ (setSource [97]).lines = [] := by
  decide

/-- C2 amended: for every byte sequence `b`, the rows built by `SetSource`
form a contiguous, non-overlapping partition ordered by row of the
terminated prefix `[0, E+1)` of `[0, len(b))`, where `E` is the offset of
the last line terminator: there is one row per terminator, row `k` ends
exactly at the `k`-th terminator, row 0 starts at offset 0, each subsequent
row starts at `previous.end + 1`, and every row is nonempty
(`start ≤ end < len(b)` with a terminator byte at `end`). A final line with
no trailing terminator is NOT committed (no row is synthesized at end of
scan), and empty input yields an empty mapping. -/
theorem lines_partition_terminated (src : List Nat) :
    ((setSource src).lines = [] ↔ nlPositions src = []) ∧
    (setSource src).lines.length = (nlPositions src).length ∧
    (∀ k, k < (setSource src).lines.length →
      ((setSource src).lines.getD k zeroLine).endPos = (nlPositions src).getD k 0 ∧
      ((setSource src).lines.getD k zeroLine).start =
        (if k = 0 then 0 else ((setSource src).lines.getD (k - 1) zeroLine).endPos + 1) ∧
      ((setSource src).lines.getD k zeroLine).start ≤
        ((setSource src).lines.getD k zeroLine).endPos ∧
      ((setSource src).lines.getD k zeroLine).endPos < src.length ∧
      src.getD ((setSource src).lines.getD k zeroLine).endPos 0 = 10) := by
  rw [setSource_lines]
  refine ⟨?_, linesSpec_length src, ?_⟩
  · rw [← List.length_eq_zero, ← List.length_eq_zero, linesSpec_length]
  · intro k hk
    have hk' : k < (nlPositions src).length := by rwa [linesSpec_length] at hk
    rw [linesSpec_getD src hk' zeroLine]
    refine ⟨rfl, ?_, ?_, nlPositions_getD_lt_length src hk', nlPositions_getD_is_nl src hk'⟩
    · by_cases h0 : k = 0
      · simp [h0, rowStart]
      · have hk2 : k - 1 < (nlPositions src).length := by omega
        rw [if_neg h0, linesSpec_getD src hk2 zeroLine]
        show rowStart (nlPositions src) k = (nlPositions src).getD (k - 1) 0 + 1
        unfold rowStart
        rw [if_neg h0]
    · exact rowStart_le_getD src hk'

/-- C2 witness: the statement applied to the sample input "ab\n  cd\n",
whose two rows are `{0, 2}` and `{3, 7}`: row 1 ends at the second
terminator, starts one past row 0's end, and is nonempty. -/
theorem lines_partition_terminated_witness :
    1 < (setSource [97, 98, 10, 32, 32, 99, 100, 10]).lines.length ∧
    ((setSource [97, 98, 10, 32, 32, 99, 100, 10]).lines.getD 1 zeroLine).endPos =
      (nlPositions [97, 98, 10, 32, 32, 99, 100, 10]).getD 1 0 ∧
    ((setSource [97, 98, 10, 32, 32, 99, 100, 10]).lines.getD 1 zeroLine).start =
      (if 1 = 0 then 0
       else ((setSource [97, 98, 10, 32, 32, 99, 100, 10]).lines.getD 0 zeroLine).endPos + 1) :=
  ⟨by decide,
   ((lines_partition_terminated [97, 98, 10, 32, 32, 99, 100, 10]).2.2 1
      (by decide)).1,
   ((lines_partition_terminated [97, 98, 10, 32, 32, 99, 100, 10]).2.2 1
      (by decide)).2.1⟩

/-- C7: every committed row's indentation equals 4 times the tab count plus
1 times the space count of the strictly leading whitespace run of the row's
content `b[start .. end)`; counting stops permanently at the first byte
that is neither tab nor space. -/
theorem row_indentation_counts_leading_ws (src : List Nat) (k : Nat)
    (hk : k < (setSource src).lines.length) :
    ((setSource src).lines.getD k zeroLine).indentation =
      4 * (((src.drop ((setSource src).lines.getD k zeroLine).start).take
              (((setSource src).lines.getD k zeroLine).endPos -
                ((setSource src).lines.getD k zeroLine).start)).takeWhile isWs).count 9 +
      1 * (((src.drop ((setSource src).lines.getD k zeroLine).start).take
              (((setSource src).lines.getD k zeroLine).endPos -
                ((setSource src).lines.getD k zeroLine).start)).takeWhile isWs).count 32 := by
  rw [setSource_lines] at hk ⊢
  have hk' : k < (nlPositions src).length := by rwa [linesSpec_length] at hk
  rw [linesSpec_getD src hk' zeroLine]
  dsimp only
  have hse := rowStart_le_getD src hk'
  have helen := nlPositions_getD_lt_length src hk'
  have h10 := nlPositions_getD_is_nl src hk'
  have hjlt : (nlPositions src).getD k 0 - rowStart (nlPositions src) k <
      (src.drop (rowStart (nlPositions src) k)).length := by
    rw [List.length_drop]
    omega
  have hws10 : isWs ((src.drop (rowStart (nlPositions src) k)).getD
      ((nlPositions src).getD k 0 - rowStart (nlPositions src) k) 0) = false := by
    rw [getD_drop src _ _ (by omega),
      show rowStart (nlPositions src) k +
          ((nlPositions src).getD k 0 - rowStart (nlPositions src) k) =
          (nlPositions src).getD k 0 by omega, h10]
    rfl
  rw [indentOf_eq_counts, takeWhile_take_of_not _ _ hjlt hws10]

theorem writeRange_length (colors : List Nat) (index stop color : Nat) :
    (writeRange colors index stop color).length = colors.length := by
  generalize hfuel : stop - index = fuel
  induction fuel generalizing colors index with
  | zero =>
    rw [writeRange, if_neg (by omega)]
  | succ n ih =>
    rw [writeRange, if_pos (by omega)]
    rw [ih _ _ (by omega), List.length_set]

theorem writeRange_getD (colors : List Nat) (index stop color j d : Nat) :
    (writeRange colors index stop color).getD j d =
      if index ≤ j ∧ j < stop ∧ j < colors.length then color else colors.getD j d := by
  generalize hfuel : stop - index = fuel
  induction fuel generalizing colors index with
  | zero =>
    rw [writeRange, if_neg (by omega), if_neg (by omega)]
  | succ n ih =>
    rw [writeRange, if_pos (by omega), ih _ _ (by omega), List.length_set]
    by_cases hj : j = index
    · subst hj
      rw [if_neg (by omega)]
      by_cases hlen : j < colors.length
      · rw [if_pos ⟨le_refl _, by omega, hlen⟩,
          List.getD_eq_getElem _ _ (by rw [List.length_set]; exact hlen),
          List.getElem_set_self]
      · rw [if_neg (by omega),
          List.getD_eq_default _ _ (by rw [List.length_set]; omega),
          List.getD_eq_default _ _ (by omega)]
    · have hset : (colors.set index color).getD j d = colors.getD j d := by
        rw [List.getD_eq_getElem?_getD, List.getD_eq_getElem?_getD,
          List.getElem?_set_ne (fun h => hj h.symm)]
      rw [hset]
      by_cases hcond : index ≤ j ∧ j < stop ∧ j < colors.length
      · rw [if_pos ⟨by omega, hcond.2⟩, if_pos hcond]
      · rw [if_neg (by omega), if_neg hcond]

theorem foldl_writeRange_length (cs : List Capture) (colors : List Nat) :
    (cs.foldl (fun cl c => writeRange cl c.startByte c.endByte (captureColor c.name))
        colors).length = colors.length := by
  induction cs generalizing colors with
  | nil => rfl
  | cons c tl ih =>
    rw [List.foldl_cons, ih, writeRange_length]

theorem applyCaptures_length (data : List Nat) (cs : List Capture) :
    (applyCaptures data cs).length = data.length := by
  unfold applyCaptures
  rw [foldl_writeRange_length, List.length_replicate]

theorem applyCaptures_getD (data : List Nat) (cs : List Capture) (j : Nat)
    (hj : j < data.length) :
    (applyCaptures data cs).getD j 0 =
      (((cs.filter fun c => decide (c.startByte ≤ j) && decide (j < c.endByte)).getLast?).map
        (fun c => captureColor c.name)).getD 5 := by
  induction cs using List.reverseRecOn with
  | nil =>
    unfold applyCaptures
    rw [List.foldl_nil, List.filter_nil,
      List.getD_eq_getElem _ _ (by rw [List.length_replicate]; exact hj),
      List.getElem_replicate]
    rfl
  | append_singleton l c ih =>
    unfold applyCaptures at ih ⊢
    rw [List.foldl_append, List.foldl_cons, List.foldl_nil, writeRange_getD,
      foldl_writeRange_length, List.length_replicate, List.filter_append]
    by_cases hc : c.startByte ≤ j ∧ j < c.endByte
    · rw [if_pos ⟨hc.1, hc.2, hj⟩]
      have hone : List.filter (fun c => decide (c.startByte ≤ j) && decide (j < c.endByte))
          [c] = [c] := by
        rw [List.filter_singleton, Bool.cond_eq_ite,
          if_pos (by simp only [Bool.and_eq_true, decide_eq_true_eq]; exact hc)]
      rw [hone, List.getLast?_append, List.getLast?_singleton]
      rfl
    · have hzero : List.filter (fun c => decide (c.startByte ≤ j) && decide (j < c.endByte))
          [c] = [] := by
        rw [List.filter_singleton, Bool.cond_eq_ite,
          if_neg (by simp only [Bool.and_eq_true, decide_eq_true_eq]; exact hc)]
      rw [if_neg (by omega), hzero, List.append_nil, ih]

/-- C5: the color overlay of `GenerateSyntaxTree` has the same length as
the input bytes; each byte's final color is the class of the last capture
covering it in processing order (so overlapping captures overwrite earlier
ones, last write wins, and capture names absent from the lookup table give
the default class 0x05 via `captureColor`); any byte covered by no capture
keeps the default class 0x05 the overlay was initialized with. -/
theorem colors_overlay_characterization (data : List Nat) (cs : List Capture) :
    (applyCaptures data cs).length = data.length ∧
    (∀ j, j < data.length →
      (applyCaptures data cs).getD j 0 =
        (((cs.filter fun c => decide (c.startByte ≤ j) && decide (j < c.endByte)).getLast?).map
          (fun c => captureColor c.name)).getD 5) ∧
    (∀ j, j < data.length → (∀ c ∈ cs, ¬(c.startByte ≤ j ∧ j < c.endByte)) →
      (applyCaptures data cs).getD j 0 = 5) := by
  refine ⟨applyCaptures_length data cs, fun j hj => applyCaptures_getD data cs j hj,
    fun j hj hnone => ?_⟩
  rw [applyCaptures_getD data cs j hj]
  have hnil : (cs.filter fun c => decide (c.startByte ≤ j) && decide (j < c.endByte)) = [] := by
    rw [List.filter_eq_nil_iff]
    intro c hcmem
    simp only [Bool.and_eq_true, decide_eq_true_eq]
    exact fun h => hnone c hcmem h
  rw [hnil]
  rfl

/-- C5 witness: on a 6-byte buffer, a "string" capture `[2,5)` followed by
an "escape" capture `[3,4)` leaves byte 3 with the escape class 0x0C and
bytes 2 and 4 with the string class 0x0B, while byte 0 stays default. -/
theorem colors_overlay_characterization_witness :
    3 < (List.replicate 6 0).length ∧
    (applyCaptures (List.replicate 6 0)
      [{ name := "string", startByte := 2, endByte := 5 },
       { name := "escape", startByte := 3, endByte := 4 }]).getD 3 0 = 12 ∧
    (applyCaptures (List.replicate 6 0)
      [{ name := "string", startByte := 2, endByte := 5 },
       { name := "escape", startByte := 3, endByte := 4 }]).getD 2 0 = 11 ∧
    (applyCaptures (List.replicate 6 0)
      [{ name := "string", startByte := 2, endByte := 5 },
       { name := "escape", startByte := 3, endByte := 4 }]).getD 4 0 = 11 ∧
    (applyCaptures (List.replicate 6 0)
      [{ name := "string", startByte := 2, endByte := 5 },
       { name := "escape", startByte := 3, endByte := 4 }]).getD 0 0 = 5 := by
  refine ⟨by decide, ?_, ?_, ?_, ?_⟩
  · rw [(colors_overlay_characterization (List.replicate 6 0)
      [⟨"string", 2, 5⟩, ⟨"escape", 3, 4⟩]).2.1 3 (by decide)]
    decide
  · rw [(colors_overlay_characterization (List.replicate 6 0)
      [⟨"string", 2, 5⟩, ⟨"escape", 3, 4⟩]).2.1 2 (by decide)]
    decide
  · rw [(colors_overlay_characterization (List.replicate 6 0)
      [⟨"string", 2, 5⟩, ⟨"escape", 3, 4⟩]).2.1 4 (by decide)]
    decide
  · rw [(colors_overlay_characterization (List.replicate 6 0)
      [⟨"string", 2, 5⟩, ⟨"escape", 3, 4⟩]).2.1 0 (by decide)]
    decide

/-- C7 witness: input "  x\n" (bytes 32 32 120 10) yields row 0 with
`start = 0`, `end = 3` and indentation 2 = 4*0 + 1*2, matching the counts
over its leading whitespace run. -/
theorem row_indentation_counts_leading_ws_witness :
    ((setSource [32, 32, 120, 10]).lines.getD 0 zeroLine).indentation =
      4 * ((([32, 32, 120, 10].drop
              ((setSource [32, 32, 120, 10]).lines.getD 0 zeroLine).start).take
              (((setSource [32, 32, 120, 10]).lines.getD 0 zeroLine).endPos -
                ((setSource [32, 32, 120, 10]).lines.getD 0 zeroLine).start)).takeWhile
              isWs).count 9 +
      1 * ((([32, 32, 120, 10].drop
              ((setSource [32, 32, 120, 10]).lines.getD 0 zeroLine).start).take
              (((setSource [32, 32, 120, 10]).lines.getD 0 zeroLine).endPos -
                ((setSource [32, 32, 120, 10]).lines.getD 0 zeroLine).start)).takeWhile
              isWs).count 32 :=
  row_indentation_counts_leading_ws [32, 32, 120, 10] 0 (by decide)

end Moe
